import Mathlib

/-!
# RSVP server (`main.go`): handlers, validation and the record store

A shallow embedding of the three HTTP handlers of `main.go` and of the package-level slice
`responses` they share.

* The global `responses` is threaded explicitly: every handler takes the slice before the call
  and returns the slice after it.
* The `http.ResponseWriter` is observed through the sequence of `Execute` calls made on it
  (template name and data value); what a template writes for a given data value is outside the
  program text.
* `main` calls `loadTemplates` before any handler is registered, and `loadTemplates` panics
  unless all five templates were parsed, so inside a handler every `templates[name]` lookup
  yields a loaded template.
* A run-time panic (indexing an empty slice) is recorded in the outcome, together with the
  store and the output as they were when it happened.
* Handler invocations are composed sequentially.
* Go strings are modelled by `String`: the handlers only compare them with literals and pass
  them on unchanged.
-/

namespace ProGo

/-- The struct `Rsvp` (main.go:9-12). -/
structure Rsvp where
  Name : String
  Email : String
  Phone : String
  WillAttend : Bool
  deriving DecidableEq, Repr

/-- The zero value `Rsvp{}` used by the GET branch (main.go:89). -/
def Rsvp.zero : Rsvp := ⟨"", "", "", false⟩

/-- The struct `formData` (main.go:76-79): an embedded `*Rsvp` and the error messages. -/
structure formData where
  Rsvp : Rsvp
  Errors : List String
  deriving DecidableEq, Repr

/-- The second argument of `Execute` as the handlers pass it. -/
inductive Data where
  /-- The literal `nil` (welcomeHandler). -/
  | nil
  /-- The slice `responses` (listHandler). -/
  | responses (rs : List Rsvp)
  /-- A `formData` value (formHandler, form template). -/
  | form (d : formData)
  /-- The string `responseData.Name` (formHandler, thanks and sorry templates). -/
  | name (s : String)
  deriving DecidableEq, Repr

/-- One call `templates[template].Execute(writer, data)`. -/
structure Execute where
  template : String
  data : Data
  deriving DecidableEq, Repr

/-- Run-time panics a handler can raise. -/
inductive Panic where
  /-- Indexing `[0]` on a slice of length 0. -/
  | indexOutOfRange
  deriving DecidableEq, Repr

/-- The type `url.Values` of `request.Form`: a map from keys to slices of values. -/
abbrev Values := List (String × List String)

/-- The index expression `form[key]` on a Go map: the stored slice, or the nil slice when the
key is absent. -/
def Values.get (form : Values) (key : String) : List String :=
  match form.lookup key with
  | some vs => vs
  | none => []

/-- The index expression `s[0]` on a slice: panics when the slice is empty. -/
def index0 (s : List String) : Except Panic String :=
  match s with
  | [] => .error .indexOutOfRange
  | v :: _ => .ok v

/-- The parts of `*http.Request` the handlers read: the method and the form map as it is after
`request.ParseForm()`. -/
structure Request where
  Method : String
  Form : Values
  deriving DecidableEq, Repr

/-- The constant `http.MethodGet`. -/
def MethodGet : String := "GET"

/-- The constant `http.MethodPost`. -/
def MethodPost : String := "POST"

/-- What a handler invocation leaves behind: the global `responses`, the `Execute` calls made
on the writer in order, and the panic that ended the invocation, if any. -/
structure Outcome where
  responses : List Rsvp
  written : List Execute
  panicked : Option Panic
  deriving DecidableEq, Repr

/-- The function `welcomeHandler` (main.go:54-56). -/
def welcomeHandler (_request : Request) (responses : List Rsvp) : Outcome :=
  ⟨responses, [⟨"welcome", .nil⟩], none⟩

/-- The function `listHandler` (main.go:65-67). -/
def listHandler (_request : Request) (responses : List Rsvp) : Outcome :=
  ⟨responses, [⟨"list", .responses responses⟩], none⟩

/-- The composite literal `Rsvp{...}` of formHandler (main.go:96-101): the four first-value
lookups, evaluated in source order. -/
def responseDataOf (form : Values) : Except Panic Rsvp := do
  let name ← index0 (form.get "name")
  let email ← index0 (form.get "email")
  let phone ← index0 (form.get "phone")
  let willattend ← index0 (form.get "willattend")
  pure ⟨name, email, phone, willattend == "true"⟩

/-- The three presence checks of formHandler (main.go:102-111), starting from the empty slice
and appending one message per empty field. -/
def errorsOf (responseData : Rsvp) : List String :=
  let errors : List String := []
  let errors := if responseData.Name = "" then errors ++ ["Please enter your name"] else errors
  let errors :=
    if responseData.Email = "" then errors ++ ["Please enter your email address"] else errors
  let errors :=
    if responseData.Phone = "" then errors ++ ["Please enter your phone number"] else errors
  errors

/-- The function `formHandler` (main.go:81-127). -/
def formHandler (request : Request) (responses : List Rsvp) : Outcome :=
  if request.Method = MethodGet then
    ⟨responses, [⟨"form", .form ⟨Rsvp.zero, []⟩⟩], none⟩
  else if request.Method = MethodPost then
    match responseDataOf request.Form with
    | .error p => ⟨responses, [], some p⟩
    | .ok responseData =>
      let errors := errorsOf responseData
      if errors.length > 0 then
        ⟨responses, [⟨"form", .form ⟨responseData, errors⟩⟩], none⟩
      else
        let responses := responses ++ [responseData]
        if responseData.WillAttend then
          ⟨responses, [⟨"thanks", .name responseData.Name⟩], none⟩
        else
          ⟨responses, [⟨"sorry", .name responseData.Name⟩], none⟩
  else
    ⟨responses, [], none⟩

/-- The three handlers registered in `main` (main.go:134-136). -/
inductive Handler where
  | welcome
  | list
  | form
  deriving DecidableEq, Repr

/-- One handler invocation. -/
def Handler.serve (h : Handler) (request : Request) (responses : List Rsvp) : Outcome :=
  match h with
  | .welcome => welcomeHandler request responses
  | .list => listHandler request responses
  | .form => formHandler request responses

/-- The store after a sequence of handler invocations, each starting from the store the
previous one left. -/
def run (calls : List (Handler × Request)) (responses : List Rsvp) : List Rsvp :=
  calls.foldl (fun rs c => (c.1.serve c.2 rs).responses) responses

/-- The store after a sequence of POST requests to the form handler carrying the given forms. -/
def submitAll (forms : List Values) (responses : List Rsvp) : List Rsvp :=
  run (forms.map fun f => (Handler.form, ⟨MethodPost, f⟩)) responses

/-- The key is in the form map with at least one value. -/
def Present (form : Values) (key : String) : Prop :=
  ∃ v vs, form.lookup key = some (v :: vs)

/-- The first value stored under the key (the empty string when there is none). -/
def first (form : Values) (key : String) : String :=
  (form.get key).headD ""

/-- All four keys read by the form handler are in the form map with at least one value. -/
def AllPresent (form : Values) : Prop :=
  Present form "name" ∧ Present form "email" ∧ Present form "phone" ∧ Present form "willattend"

/-- A submission that passes the three presence checks: the four keys are there and the first
values of name, email and phone are non-empty. -/
def Valid (form : Values) : Prop :=
  AllPresent form ∧ first form "name" ≠ "" ∧ first form "email" ≠ "" ∧ first form "phone" ≠ ""

/-- The record made of the first values of a submission. -/
def recordOf (form : Values) : Rsvp :=
  ⟨first form "name", first form "email", first form "phone", first form "willattend" == "true"⟩

/-- Every stored record has non-empty name, email and phone. -/
def StoreValid (responses : List Rsvp) : Prop :=
  ∀ r ∈ responses, r.Name ≠ "" ∧ r.Email ≠ "" ∧ r.Phone ≠ ""

/-- Scenario B of the specification: name and phone filled in, email empty. -/
def anaNoEmail : Values :=
  [("name", ["Ana"]), ("email", [""]), ("phone", ["555"]), ("willattend", ["true"])]

/-- Scenario C of the specification: a complete submission that accepts. -/
def anaAttending : Values :=
  [("name", ["Ana"]), ("email", ["a@x.com"]), ("phone", ["555"]), ("willattend", ["true"])]

/-- A complete submission that declines with a value other than the literal true. -/
def anaDeclining : Values :=
  [("name", ["Ana"]), ("email", ["a@x.com"]), ("phone", ["555"]), ("willattend", ["True"])]

/-- Scenario D of the specification: name, email and phone filled in, no willattend key. -/
def anaNoWillattend : Values :=
  [("name", ["Ana"]), ("email", ["a@x.com"]), ("phone", ["555"])]

/-! ## Shared lemmas -/

theorem get_of_lookup {form : Values} {key v : String} {vs : List String}
    (h : form.lookup key = some (v :: vs)) : form.get key = v :: vs := by
  simp [Values.get, h]

theorem first_of_lookup {form : Values} {key v : String} {vs : List String}
    (h : form.lookup key = some (v :: vs)) : first form key = v := by
  simp [first, get_of_lookup h]

theorem index0_of_present {form : Values} {key : String} (h : Present form key) :
    index0 (form.get key) = .ok (first form key) := by
  obtain ⟨v, vs, hv⟩ := h
  simp [first, get_of_lookup hv, index0]

theorem index0_of_get_nil {form : Values} {key : String} (h : form.get key = []) :
    index0 (form.get key) = .error .indexOutOfRange := by
  simp [h, index0]

theorem get_nil_of_lookup_none {form : Values} {key : String} (h : form.lookup key = none) :
    form.get key = [] := by
  simp [Values.get, h]

theorem not_present_of_get_nil {form : Values} {key : String} (h : form.get key = []) :
    ¬ Present form key := by
  rintro ⟨v, vs, hv⟩
  simp [get_of_lookup hv] at h

theorem present_of_get_ne_nil {form : Values} {key : String} (h : form.get key ≠ []) :
    Present form key := by
  unfold Values.get at h
  cases hl : form.lookup key with
  | none => simp [hl] at h
  | some vs =>
    cases vs with
    | nil => simp [hl] at h
    | cons v vs => exact ⟨v, vs, hl⟩

theorem responseDataOf_of_allPresent {form : Values} (h : AllPresent form) :
    responseDataOf form = .ok (recordOf form) := by
  obtain ⟨hn, he, hp, hw⟩ := h
  simp only [responseDataOf, index0_of_present hn, index0_of_present he, index0_of_present hp,
    index0_of_present hw, recordOf]
  rfl

theorem responseDataOf_of_not_allPresent {form : Values} (h : ¬ AllPresent form) :
    responseDataOf form = .error .indexOutOfRange := by
  unfold responseDataOf
  by_cases hn : form.get "name" = []
  · rw [index0_of_get_nil hn]; rfl
  have hn := index0_of_present (present_of_get_ne_nil hn)
  by_cases he : form.get "email" = []
  · rw [hn, index0_of_get_nil he]; rfl
  have he := index0_of_present (present_of_get_ne_nil he)
  by_cases hp : form.get "phone" = []
  · rw [hn, he, index0_of_get_nil hp]; rfl
  have hp := index0_of_present (present_of_get_ne_nil hp)
  by_cases hw : form.get "willattend" = []
  · rw [hn, he, hp, index0_of_get_nil hw]; rfl
  exact absurd ⟨present_of_get_ne_nil (by assumption), present_of_get_ne_nil (by assumption),
    present_of_get_ne_nil (by assumption), present_of_get_ne_nil hw⟩ h

theorem errorsOf_eq (r : Rsvp) :
    errorsOf r =
      (if r.Name = "" then ["Please enter your name"] else []) ++
      (if r.Email = "" then ["Please enter your email address"] else []) ++
      (if r.Phone = "" then ["Please enter your phone number"] else []) := by
  unfold errorsOf
  split <;> split <;> split <;> rfl

theorem errorsOf_length (r : Rsvp) :
    (errorsOf r).length = List.count "" [r.Name, r.Email, r.Phone] := by
  rw [errorsOf_eq]
  by_cases h1 : r.Name = "" <;> by_cases h2 : r.Email = "" <;> by_cases h3 : r.Phone = "" <;>
    simp [h1, h2, h3, List.count_cons]

theorem errorsOf_eq_nil_iff (r : Rsvp) :
    errorsOf r = [] ↔ r.Name ≠ "" ∧ r.Email ≠ "" ∧ r.Phone ≠ "" := by
  rw [errorsOf_eq]
  by_cases h1 : r.Name = "" <;> by_cases h2 : r.Email = "" <;> by_cases h3 : r.Phone = "" <;>
    simp [h1, h2, h3]

theorem formHandler_post (form : Values) (responses : List Rsvp) :
    formHandler ⟨MethodPost, form⟩ responses =
      match responseDataOf form with
      | .error p => ⟨responses, [], some p⟩
      | .ok responseData =>
        if errorsOf responseData = [] then
          ⟨responses ++ [responseData],
            [⟨if responseData.WillAttend then "thanks" else "sorry", .name responseData.Name⟩],
            none⟩
        else
          ⟨responses, [⟨"form", .form ⟨responseData, errorsOf responseData⟩⟩], none⟩ := by
  have hne : ¬ (MethodPost = MethodGet) := by decide
  simp only [formHandler, hne, if_false, if_true]
  cases responseDataOf form with
  | error p => rfl
  | ok r =>
    by_cases he : errorsOf r = []
    · cases hw : r.WillAttend <;> simp [he, hw]
    · have : (errorsOf r).length > 0 := List.length_pos.mpr he
      simp [he, this]

theorem formHandler_post_valid {form : Values} (h : Valid form) (responses : List Rsvp) :
    formHandler ⟨MethodPost, form⟩ responses =
      ⟨responses ++ [recordOf form],
        [⟨if (recordOf form).WillAttend then "thanks" else "sorry",
          .name (first form "name")⟩], none⟩ := by
  obtain ⟨hp, hn, he, hph⟩ := h
  have hnil : errorsOf (recordOf form) = [] :=
    (errorsOf_eq_nil_iff _).mpr ⟨hn, he, hph⟩
  rw [formHandler_post, responseDataOf_of_allPresent hp]
  simp [hnil]
  rfl

theorem formHandler_post_errors {form : Values} (hp : AllPresent form)
    (h : first form "name" = "" ∨ first form "email" = "" ∨ first form "phone" = "")
    (responses : List Rsvp) :
    formHandler ⟨MethodPost, form⟩ responses =
      ⟨responses, [⟨"form", .form ⟨recordOf form, errorsOf (recordOf form)⟩⟩], none⟩ := by
  have hnil : errorsOf (recordOf form) ≠ [] := by
    intro hc
    obtain ⟨h1, h2, h3⟩ := (errorsOf_eq_nil_iff _).mp hc
    rcases h with h | h | h
    · exact h1 h
    · exact h2 h
    · exact h3 h
  rw [formHandler_post, responseDataOf_of_allPresent hp]
  simp [hnil]

theorem formHandler_post_panic {form : Values} (h : ¬ AllPresent form)
    (responses : List Rsvp) :
    formHandler ⟨MethodPost, form⟩ responses = ⟨responses, [], some .indexOutOfRange⟩ := by
  rw [formHandler_post, responseDataOf_of_not_allPresent h]

theorem serve_responses (h : Handler) (request : Request) (responses : List Rsvp) :
    (h = .form ∧ request.Method = MethodPost ∧ Valid request.Form ∧
        (h.serve request responses).responses = responses ++ [recordOf request.Form]) ∨
      (¬ (h = .form ∧ request.Method = MethodPost ∧ Valid request.Form) ∧
        (h.serve request responses).responses = responses) := by
  cases h with
  | welcome => right; exact ⟨by simp, rfl⟩
  | list => right; exact ⟨by simp, rfl⟩
  | form =>
    obtain ⟨method, form⟩ := request
    by_cases hm : method = MethodPost
    · subst hm
      by_cases hp : AllPresent form
      · by_cases hv : first form "name" = "" ∨ first form "email" = "" ∨ first form "phone" = ""
        · right
          refine ⟨?_, by simp [Handler.serve, formHandler_post_errors hp hv]⟩
          rintro ⟨-, -, -, h1, h2, h3⟩
          rcases hv with hv | hv | hv
          · exact h1 hv
          · exact h2 hv
          · exact h3 hv
        · left
          have hvalid : Valid form := by
            refine ⟨hp, ?_, ?_, ?_⟩ <;> intro hc <;> exact hv (by simp [hc])
          exact ⟨rfl, rfl, hvalid, by simp [Handler.serve, formHandler_post_valid hvalid]⟩
      · right
        exact ⟨fun hc => hp hc.2.2.1, by simp [Handler.serve, formHandler_post_panic hp]⟩
    · right
      refine ⟨fun hc => hm hc.2.1, ?_⟩
      by_cases hg : method = MethodGet
      · simp [Handler.serve, formHandler, hg]
      · simp [Handler.serve, formHandler, hg, hm]

theorem storeValid_append {responses : List Rsvp} {form : Values} (hs : StoreValid responses)
    (hv : Valid form) : StoreValid (responses ++ [recordOf form]) := by
  intro r hr
  rcases List.mem_append.mp hr with hr | hr
  · exact hs r hr
  · rw [List.mem_singleton] at hr
    subst hr
    exact hv.2

theorem submitAll_eq (forms : List Values) (h : ∀ f ∈ forms, Valid f) (responses : List Rsvp) :
    submitAll forms responses = responses ++ forms.map recordOf := by
  induction forms generalizing responses with
  | nil => simp [submitAll, run]
  | cons f fs ih =>
    have hf : Valid f := h f (List.mem_cons_self _ _)
    have hfs : ∀ g ∈ fs, Valid g := fun g hg => h g (List.mem_cons_of_mem _ hg)
    have step : submitAll (f :: fs) responses = submitAll fs (responses ++ [recordOf f]) := by
      simp [submitAll, run, Handler.serve, formHandler_post_valid hf]
    rw [step, ih hfs]
    simp

/-! ## Validation of a submission -/

/-- C1: for a POST submission in which the keys name, email, phone and willattend are all
present and the first values of name, email and phone are non-empty, the record constructed by
the form handler carries exactly the raw first values (no trimming, no case change), the
presence checks produce no error message, and that very record is what the handler stores. -/
theorem valid_submission_raw_record (form : Values) (responses : List Rsvp)
    (n e p w : String) (ns es ps ws : List String)
    (hn : form.lookup "name" = some (n :: ns))
    (he : form.lookup "email" = some (e :: es))
    (hp : form.lookup "phone" = some (p :: ps))
    (hw : form.lookup "willattend" = some (w :: ws))
    (hne : n ≠ "") (hee : e ≠ "") (hpe : p ≠ "") :
    ∃ r, responseDataOf form = .ok r ∧ errorsOf r = [] ∧
      r.Name = n ∧ r.Email = e ∧ r.Phone = p ∧
      (formHandler ⟨MethodPost, form⟩ responses).responses = responses ++ [r] := by
  have hall : AllPresent form := ⟨⟨n, ns, hn⟩, ⟨e, es, he⟩, ⟨p, ps, hp⟩, ⟨w, ws, hw⟩⟩
  have hvalid : Valid form := by
    refine ⟨hall, ?_, ?_, ?_⟩
    · rw [first_of_lookup hn]; exact hne
    · rw [first_of_lookup he]; exact hee
    · rw [first_of_lookup hp]; exact hpe
  refine ⟨recordOf form, responseDataOf_of_allPresent hall,
    (errorsOf_eq_nil_iff _).mpr hvalid.2, first_of_lookup hn, first_of_lookup he,
    first_of_lookup hp, ?_⟩
  rw [formHandler_post_valid hvalid]

/-- C1 at a concrete submission with surrounding blanks and mixed case: the stored fields are
the submitted strings, character for character. -/
theorem valid_submission_raw_record_witness :
    ∃ r, responseDataOf [("name", [" Ana "]), ("email", ["A@X.com"]), ("phone", ["555 "]),
        ("willattend", ["true"])] = .ok r ∧ errorsOf r = [] ∧
      r.Name = " Ana " ∧ r.Email = "A@X.com" ∧ r.Phone = "555 " ∧
      (formHandler ⟨MethodPost, [("name", [" Ana "]), ("email", ["A@X.com"]),
        ("phone", ["555 "]), ("willattend", ["true"])]⟩ []).responses = [] ++ [r] :=
  valid_submission_raw_record _ [] " Ana " "A@X.com" "555 " "true" [] [] [] []
    (by decide) (by decide) (by decide) (by decide) (by decide) (by decide) (by decide)

/-- C2: for a POST submission with all four keys present in which exactly k of the first values
of name, email, phone are empty, k at least 1, the presence checks produce exactly k messages,
namely those of the empty fields in the fixed order name, email, phone (each field is checked
on its own), and the store after the request is the store before it. -/
theorem empty_fields_messages_in_order (form : Values) (responses : List Rsvp) (k : Nat)
    (hall : AllPresent form)
    (hk : List.count "" [first form "name", first form "email", first form "phone"] = k)
    (hpos : 1 ≤ k) :
    ∃ r, responseDataOf form = .ok r ∧
      errorsOf r =
        (if first form "name" = "" then ["Please enter your name"] else []) ++
        (if first form "email" = "" then ["Please enter your email address"] else []) ++
        (if first form "phone" = "" then ["Please enter your phone number"] else []) ∧
      (errorsOf r).length = k ∧
      (formHandler ⟨MethodPost, form⟩ responses).responses = responses := by
  have hsome : first form "name" = "" ∨ first form "email" = "" ∨ first form "phone" = "" := by
    by_contra hc
    push_neg at hc
    obtain ⟨h1, h2, h3⟩ := hc
    have : List.count "" [first form "name", first form "email", first form "phone"] = 0 := by
      simp [List.count_cons, h1, h2, h3]
    omega
  refine ⟨recordOf form, responseDataOf_of_allPresent hall, errorsOf_eq _, ?_, ?_⟩
  · rw [errorsOf_length]; exact hk
  · rw [formHandler_post_errors hall hsome]

/-- C2 at a submission with name and phone empty (k = 2): two messages, name before phone. -/
theorem empty_fields_messages_in_order_witness :
    ∃ r, responseDataOf [("name", [""]), ("email", ["a@x.com"]), ("phone", [""]),
        ("willattend", ["true"])] = .ok r ∧
      errorsOf r = ["Please enter your name", "Please enter your phone number"] ∧
      (errorsOf r).length = 2 ∧
      (formHandler ⟨MethodPost, [("name", [""]), ("email", ["a@x.com"]), ("phone", [""]),
        ("willattend", ["true"])]⟩ [⟨"Bo", "b@x.com", "1", false⟩]).responses =
        [⟨"Bo", "b@x.com", "1", false⟩] :=
  empty_fields_messages_in_order
    [("name", [""]), ("email", ["a@x.com"]), ("phone", [""]), ("willattend", ["true"])]
    [⟨"Bo", "b@x.com", "1", false⟩] 2
    ⟨⟨"", [], by decide⟩, ⟨"a@x.com", [], by decide⟩, ⟨"", [], by decide⟩,
      ⟨"true", [], by decide⟩⟩
    (by decide) (by decide)

/-- C3, as stated, fails at Scenario D: with name, email and phone filled in and the
willattend key absent, the form handler panics on the fourth lookup; no record is stored and
the sorry view is not rendered. -/
theorem absent_willattend_stores_nothing :
    formHandler ⟨MethodPost, anaNoWillattend⟩ [] = ⟨[], [], some .indexOutOfRange⟩ ∧
      ¬ ((formHandler ⟨MethodPost, anaNoWillattend⟩ []).responses =
            [⟨"Ana", "a@x.com", "555", false⟩] ∧
          (formHandler ⟨MethodPost, anaNoWillattend⟩ []).written =
            [⟨"sorry", .name "Ana"⟩]) := by
  decide

/-- C3 (amended): for a POST submission with all four keys present, the WillAttend field of
the constructed record is true exactly when the first willattend value is the string true;
when in addition name, email and phone are non-empty and the willattend value is anything
else, one record with WillAttend false is stored and the sorry view is rendered with the name.
With the willattend key absent no record is constructed: the handler panics, stores nothing
and renders nothing. -/
theorem willAttend_iff_literal_true (form : Values) (responses : List Rsvp) :
    (∀ n e p w ns es ps ws,
      form.lookup "name" = some (n :: ns) → form.lookup "email" = some (e :: es) →
      form.lookup "phone" = some (p :: ps) → form.lookup "willattend" = some (w :: ws) →
      ∃ r, responseDataOf form = .ok r ∧ (r.WillAttend = true ↔ w = "true") ∧
        (n ≠ "" → e ≠ "" → p ≠ "" → w ≠ "true" →
          formHandler ⟨MethodPost, form⟩ responses =
            ⟨responses ++ [⟨n, e, p, false⟩], [⟨"sorry", .name n⟩], none⟩)) ∧
    (form.lookup "willattend" = none →
      formHandler ⟨MethodPost, form⟩ responses = ⟨responses, [], some .indexOutOfRange⟩) := by
  constructor
  · intro n e p w ns es ps ws hn he hp hw
    have hall : AllPresent form := ⟨⟨n, ns, hn⟩, ⟨e, es, he⟩, ⟨p, ps, hp⟩, ⟨w, ws, hw⟩⟩
    refine ⟨recordOf form, responseDataOf_of_allPresent hall, ?_, ?_⟩
    · simp [recordOf, first_of_lookup hw]
    · intro hne hee hpe hwe
      have hvalid : Valid form := by
        refine ⟨hall, ?_, ?_, ?_⟩
        · rw [first_of_lookup hn]; exact hne
        · rw [first_of_lookup he]; exact hee
        · rw [first_of_lookup hp]; exact hpe
      rw [formHandler_post_valid hvalid]
      simp [recordOf, first_of_lookup hn, first_of_lookup he, first_of_lookup hp,
        first_of_lookup hw, hwe]
  · intro hnone
    apply formHandler_post_panic
    intro hall
    exact not_present_of_get_nil (get_nil_of_lookup_none hnone) hall.2.2.2

/-- C3 (amended) at a submission whose willattend value is the capitalised True: the record is
stored with WillAttend false and the sorry view is rendered. -/
theorem willAttend_iff_literal_true_witness :
    formHandler ⟨MethodPost, anaDeclining⟩ [] =
      ⟨[] ++ [⟨"Ana", "a@x.com", "555", false⟩], [⟨"sorry", .name "Ana"⟩], none⟩ := by
  obtain ⟨_, _, _, h⟩ := (willAttend_iff_literal_true anaDeclining []).1
    "Ana" "a@x.com" "555" "True" [] [] [] [] (by decide) (by decide) (by decide) (by decide)
  exact h (by decide) (by decide) (by decide) (by decide)

/-! ## The record store -/

/-- C4: starting from the empty store, after any finite sequence of valid POST submissions
(duplicates allowed) the list handler passes to the list view exactly the records built from
the submissions, one per submission and in submission order. -/
theorem list_after_valid_submissions (forms : List Values) (request : Request)
    (h : ∀ f ∈ forms, Valid f) :
    (∀ f ∈ forms, responseDataOf f = .ok (recordOf f)) ∧
    (listHandler request (submitAll forms [])).written =
      [⟨"list", .responses (forms.map recordOf)⟩] ∧
    (submitAll forms []).length = forms.length ∧
    ∀ (i : Nat) (hi : i < forms.length),
      (submitAll forms [])[i]? = some (recordOf (forms.get ⟨i, hi⟩)) := by
  have hs : submitAll forms [] = forms.map recordOf := by
    rw [submitAll_eq forms h]; simp
  refine ⟨fun f hf => responseDataOf_of_allPresent (h f hf).1, ?_, ?_, ?_⟩
  · rw [hs]; rfl
  · rw [hs]; simp
  · intro i hi
    rw [hs]
    simp [List.getElem?_map, List.getElem?_eq_getElem hi]

/-- C4 at the same valid submission made twice: the list view receives two equal records. -/
theorem list_after_valid_submissions_witness :
    (listHandler ⟨MethodGet, []⟩ (submitAll [anaAttending, anaAttending] [])).written =
      [⟨"list", .responses
        [⟨"Ana", "a@x.com", "555", true⟩, ⟨"Ana", "a@x.com", "555", true⟩]⟩] :=
  (list_after_valid_submissions [anaAttending, anaAttending] ⟨MethodGet, []⟩
    (by
      intro f hf
      have hf : f = anaAttending := by simpa using hf
      subst hf
      exact ⟨⟨⟨"Ana", [], by decide⟩, ⟨"a@x.com", [], by decide⟩, ⟨"555", [], by decide⟩,
        ⟨"true", [], by decide⟩⟩, by decide, by decide, by decide⟩)).2.1

/-- C5: a POST submission that passes validation makes the form handler append exactly the
constructed record at the end of the store and render exactly one view, with the submitted
name as data: thanks when WillAttend is true, sorry when it is false; the form view is not
rendered and the handler does not panic. -/
theorem valid_post_appends_and_renders (form : Values) (responses : List Rsvp)
    (h : Valid form) :
    ∃ r, responseDataOf form = .ok r ∧ r.Name = first form "name" ∧
      formHandler ⟨MethodPost, form⟩ responses =
        ⟨responses ++ [r], [⟨if r.WillAttend then "thanks" else "sorry", .name r.Name⟩],
          none⟩ :=
  ⟨recordOf form, responseDataOf_of_allPresent h.1, rfl, formHandler_post_valid h responses⟩

/-- C5 at Scenario C: the thanks view is rendered with data Ana and the store grows by one
record with WillAttend true. -/
theorem valid_post_appends_and_renders_witness :
    ∃ r, responseDataOf anaAttending = .ok r ∧ r.Name = "Ana" ∧
      formHandler ⟨MethodPost, anaAttending⟩ [⟨"Bo", "b@x.com", "1", false⟩] =
        ⟨[⟨"Bo", "b@x.com", "1", false⟩] ++ [r],
          [⟨if r.WillAttend then "thanks" else "sorry", .name r.Name⟩], none⟩ :=
  valid_post_appends_and_renders anaAttending [⟨"Bo", "b@x.com", "1", false⟩]
    ⟨⟨⟨"Ana", [], by decide⟩, ⟨"a@x.com", [], by decide⟩, ⟨"555", [], by decide⟩,
      ⟨"true", [], by decide⟩⟩, by decide, by decide, by decide⟩

/-- C6: a POST submission with all four keys present and at least one of name, email, phone
empty makes the form handler render the form view and nothing else, with the partially filled
record (raw first values, WillAttend computed from willattend) and the non-empty list of
messages as data; the store is left as it was. -/
theorem invalid_post_rerenders_form (form : Values) (responses : List Rsvp)
    (hall : AllPresent form)
    (h : first form "name" = "" ∨ first form "email" = "" ∨ first form "phone" = "") :
    ∃ r, responseDataOf form = .ok r ∧
      r = ⟨first form "name", first form "email", first form "phone",
        first form "willattend" == "true"⟩ ∧
      errorsOf r ≠ [] ∧
      formHandler ⟨MethodPost, form⟩ responses =
        ⟨responses, [⟨"form", .form ⟨r, errorsOf r⟩⟩], none⟩ := by
  refine ⟨recordOf form, responseDataOf_of_allPresent hall, rfl, ?_,
    formHandler_post_errors hall h responses⟩
  intro hc
  obtain ⟨h1, h2, h3⟩ := (errorsOf_eq_nil_iff _).mp hc
  rcases h with h | h | h
  · exact h1 h
  · exact h2 h
  · exact h3 h

/-- C6 at Scenario B: the form view is rendered again with the record Ana, empty email, 555,
true and the single message about the email address. -/
theorem invalid_post_rerenders_form_witness :
    formHandler ⟨MethodPost, anaNoEmail⟩ [] =
      ⟨[], [⟨"form", .form ⟨⟨"Ana", "", "555", true⟩,
        ["Please enter your email address"]⟩⟩], none⟩ := by
  obtain ⟨r, hr, hrec, _, hout⟩ := invalid_post_rerenders_form anaNoEmail []
    ⟨⟨"Ana", [], by decide⟩, ⟨"", [], by decide⟩, ⟨"555", [], by decide⟩,
      ⟨"true", [], by decide⟩⟩ (Or.inr (Or.inl (by decide)))
  rw [hout, hrec]
  decide

/-- C7: every record in the store has non-empty Name, Email and Phone. This holds for the
initial empty store, is preserved by every handler invocation (welcome, list, form, with any
method and any form data, panicking or not), and therefore holds after every sequence of
invocations. -/
theorem stored_records_nonempty :
    StoreValid [] ∧
    (∀ (h : Handler) (request : Request) (responses : List Rsvp),
      StoreValid responses → StoreValid (h.serve request responses).responses) ∧
    ∀ calls : List (Handler × Request), StoreValid (run calls []) := by
  have hinit : StoreValid [] := fun r hr => absurd hr (List.not_mem_nil r)
  have hstep : ∀ (h : Handler) (request : Request) (responses : List Rsvp),
      StoreValid responses → StoreValid (h.serve request responses).responses := by
    intro h request responses hs
    rcases serve_responses h request responses with ⟨-, -, hv, heq⟩ | ⟨-, heq⟩
    · rw [heq]; exact storeValid_append hs hv
    · rw [heq]; exact hs
  refine ⟨hinit, hstep, ?_⟩
  have hrun : ∀ (calls : List (Handler × Request)) (responses : List Rsvp),
      StoreValid responses → StoreValid (run calls responses) := by
    intro calls
    induction calls with
    | nil => intro responses hs; exact hs
    | cons c cs ih =>
      intro responses hs
      exact ih _ (hstep c.1 c.2 responses hs)
  exact fun calls => hrun calls [] hinit

/-- C7 on a concrete history (a rejected POST, an accepted POST, a list request, a PUT and a
POST that panics): the store ends with the one accepted record, whose fields are non-empty. -/
theorem stored_records_nonempty_witness :
    run [(.form, ⟨"POST", anaNoEmail⟩), (.form, ⟨"POST", anaAttending⟩), (.list, ⟨"GET", []⟩),
        (.form, ⟨"PUT", anaDeclining⟩), (.form, ⟨"POST", anaNoWillattend⟩)] [] =
        [⟨"Ana", "a@x.com", "555", true⟩] ∧
      StoreValid (run [(.form, ⟨"POST", anaNoEmail⟩), (.form, ⟨"POST", anaAttending⟩),
        (.list, ⟨"GET", []⟩), (.form, ⟨"PUT", anaDeclining⟩),
        (.form, ⟨"POST", anaNoWillattend⟩)] []) :=
  ⟨by decide, stored_records_nonempty.2.2 _⟩

/-- C8: the store is append-only and changes only on a successful form submission. For every
handler and request the store before the call is an initial segment of the store after it,
with at most one record added; exactly one record is added if and only if the call is a POST
to the form handler with all four keys present and name, email, phone non-empty; every other
call leaves the store exactly as it was. -/
theorem store_append_only (h : Handler) (request : Request) (responses : List Rsvp) :
    (∃ added, (h.serve request responses).responses = responses ++ added ∧ added.length ≤ 1) ∧
    ((h.serve request responses).responses.length = responses.length + 1 ↔
      h = .form ∧ request.Method = MethodPost ∧ Valid request.Form) ∧
    ((h.serve request responses).responses ≠ responses ↔
      h = .form ∧ request.Method = MethodPost ∧ Valid request.Form) ∧
    (welcomeHandler request responses).responses = responses ∧
    (listHandler request responses).responses = responses ∧
    (request.Method ≠ MethodPost → (formHandler request responses).responses = responses) ∧
    (¬ Valid request.Form → (formHandler request responses).responses = responses) := by
  have key := serve_responses h request responses
  have keyf := serve_responses .form request responses
  refine ⟨?_, ?_, ?_, rfl, rfl, ?_, ?_⟩
  · rcases key with ⟨-, -, -, heq⟩ | ⟨-, heq⟩
    · exact ⟨[recordOf request.Form], heq, by simp⟩
    · exact ⟨[], by simp [heq], by simp⟩
  · rcases key with ⟨h1, h2, h3, heq⟩ | ⟨hno, heq⟩
    · rw [heq]; simp [h1, h2, h3]
    · rw [heq]
      constructor
      · intro hc; omega
      · intro hc; exact absurd hc hno
  · rcases key with ⟨h1, h2, h3, heq⟩ | ⟨hno, heq⟩
    · rw [heq]; simp [h1, h2, h3]
    · rw [heq]
      constructor
      · intro hc; exact absurd rfl hc
      · intro hc; exact absurd hc hno
  · intro hm
    rcases keyf with ⟨-, h2, -, -⟩ | ⟨-, heq⟩
    · exact absurd h2 hm
    · exact heq
  · intro hv
    rcases keyf with ⟨-, -, h3, -⟩ | ⟨-, heq⟩
    · exact absurd h3 hv
    · exact heq

/-- C8 at Scenario C against a store holding one record: the store grows by exactly one. -/
theorem store_append_only_witness :
    (Handler.form.serve ⟨MethodPost, anaAttending⟩ [⟨"Bo", "b@x.com", "1", false⟩]).responses.length
      = [(⟨"Bo", "b@x.com", "1", false⟩ : Rsvp)].length + 1 :=
  (store_append_only .form ⟨MethodPost, anaAttending⟩ [⟨"Bo", "b@x.com", "1", false⟩]).2.1.mpr
    ⟨rfl, rfl, ⟨⟨"Ana", [], by decide⟩, ⟨"a@x.com", [], by decide⟩, ⟨"555", [], by decide⟩,
      ⟨"true", [], by decide⟩⟩, by decide, by decide, by decide⟩

/-! ## Panics and methods -/

/-- C9: the first-value lookups of the form handler are unguarded. For every POST in which one
of the keys name, email, phone, willattend is absent from the form map, the handler panics
with an index out of range before rendering anything and before touching the store; for every
POST in which all four keys are present with at least one value, it completes without
panicking and renders exactly one view. -/
theorem missing_key_panics (form : Values) (responses : List Rsvp) :
    (∀ key ∈ ["name", "email", "phone", "willattend"], form.lookup key = none →
      formHandler ⟨MethodPost, form⟩ responses = ⟨responses, [], some .indexOutOfRange⟩) ∧
    (AllPresent form →
      (formHandler ⟨MethodPost, form⟩ responses).panicked = none ∧
      (formHandler ⟨MethodPost, form⟩ responses).written.length = 1) := by
  constructor
  · intro key hkey hnone
    apply formHandler_post_panic
    have hnot := not_present_of_get_nil (get_nil_of_lookup_none hnone)
    simp only [List.mem_cons, List.mem_singleton, List.not_mem_nil, or_false] at hkey
    rintro ⟨h1, h2, h3, h4⟩
    rcases hkey with rfl | rfl | rfl | rfl
    · exact hnot h1
    · exact hnot h2
    · exact hnot h3
    · exact hnot h4
  · intro hall
    by_cases hv : first form "name" = "" ∨ first form "email" = "" ∨ first form "phone" = ""
    · rw [formHandler_post_errors hall hv]; exact ⟨rfl, rfl⟩
    · have hvalid : Valid form := by
        refine ⟨hall, ?_, ?_, ?_⟩ <;> intro hc <;> exact hv (by simp [hc])
      rw [formHandler_post_valid hvalid]; exact ⟨rfl, rfl⟩

/-- C9 at a POST without the email key, against a store holding one record: the handler
panics, the store still holds that one record and nothing was rendered. -/
theorem missing_key_panics_witness :
    formHandler ⟨MethodPost, [("name", ["Ana"]), ("phone", ["555"]), ("willattend", ["true"])]⟩
        [⟨"Bo", "b@x.com", "1", false⟩] =
      ⟨[⟨"Bo", "b@x.com", "1", false⟩], [], some .indexOutOfRange⟩ :=
  (missing_key_panics [("name", ["Ana"]), ("phone", ["555"]), ("willattend", ["true"])]
    [⟨"Bo", "b@x.com", "1", false⟩]).1 "email" (by decide) (by decide)

/-- C10: a request to the form handler whose method is neither GET nor POST, whatever form
data it carries, renders no view, leaves the store unchanged and does not panic; a GET renders
the form view with the empty record (all strings empty, WillAttend false) and an empty list
of messages. -/
theorem other_methods_render_nothing (request : Request) (responses : List Rsvp) :
    (request.Method ≠ "GET" → request.Method ≠ "POST" →
      formHandler request responses = ⟨responses, [], none⟩) ∧
    (request.Method = "GET" →
      formHandler request responses =
        ⟨responses, [⟨"form", .form ⟨⟨"", "", "", false⟩, []⟩⟩], none⟩) := by
  constructor
  · intro hg hp
    simp [formHandler, MethodGet, MethodPost, hg, hp]
  · intro hg
    simp [formHandler, MethodGet, hg, Rsvp.zero]

/-- C10 at a PUT carrying a complete valid form: nothing is rendered and nothing is stored. -/
theorem other_methods_render_nothing_witness :
    formHandler ⟨"PUT", anaAttending⟩ [] = ⟨[], [], none⟩ :=
  (other_methods_render_nothing ⟨"PUT", anaAttending⟩ []).1 (by decide) (by decide)

end ProGo
